import Mathlib

/-!
Verification of the word-chain game core found in src/app.js and its
near-duplicate copy src/unnamed/part_000.

Strings are modelled as lists of characters (`Word`).  The JavaScript
`toLowerCase` is modelled for the alphabets the program uses (ASCII and
Cyrillic); `trim`, `Set` semantics and `||`-defaulting are modelled
explicitly.  The game loop of `WordGame.#gameLoop` is embedded as a step
function on a loop state; `return` statements are modelled by a `finished`
flag that freezes the state.
-/

namespace WordChain

/-- A JavaScript string, as a list of characters. -/
abbrev Word := List Char

/-- Model of `String.prototype.toLowerCase` for one character, covering the
ASCII and Cyrillic letters that occur in the word data of the program. -/
def jsToLowerChar (c : Char) : Char :=
  if 'A' ≤ c ∧ c ≤ 'Z' then Char.ofNat (c.toNat + 32)
  else if 0x410 ≤ c.toNat ∧ c.toNat ≤ 0x42F then Char.ofNat (c.toNat + 0x20)
  else if c.toNat = 0x401 then Char.ofNat 0x451
  else c

/-- Model of `String.prototype.toLowerCase` (case-folding / canonical form). -/
def jsToLower (w : Word) : Word := w.map jsToLowerChar

/-- Whitespace characters removed by `String.prototype.trim`. -/
def isSpaceChar (c : Char) : Bool :=
  (c == ' ') || (c == '\t') || (c == '\n') || (c == '\r')

/-- Model of `String.prototype.trim`. -/
def trim (w : Word) : Word :=
  ((w.dropWhile isSpaceChar).reverse.dropWhile isSpaceChar).reverse

/-- JavaScript `Set.prototype.add`: appends unless already present. -/
def setAdd (l : List Word) (x : Word) : List Word :=
  if x ∈ l then l else l ++ [x]

/-- Model of `new Set(list)`: deduplicates keeping first occurrences. -/
def jsSetOfList (l : List Word) : List Word := l.foldl setAdd []

/-- JavaScript `value || default` for a possibly-missing string field:
`undefined` and the empty string are falsy. -/
def jsOrW (o : Option Word) (d : Word) : Word :=
  match o with
  | none => d
  | some s => if s = [] then d else s

/-- JavaScript `value || false` for a possibly-missing boolean field. -/
def jsOrB (o : Option Bool) : Bool :=
  match o with
  | none => false
  | some b => b || false

/-- Replace the element at an index, leaving the list unchanged out of range
(models `this.#players[playerIdx]` mutation). -/
def modifyNth {α : Type} (f : α → α) : Nat → List α → List α
  | _, [] => []
  | 0, a :: t => f a :: t
  | n + 1, a :: t => a :: modifyNth f n t

/-- A word database: category name to word list, as in
`ComputerPlayer.#wordDatabase`. -/
abbrev WordDB := List (Word × List Word)

/-- Model of `this.#wordDatabase[category] || []`. -/
def dbLookup (db : WordDB) (cat : Word) : List Word :=
  match db.find? (fun e => e.1 == cat) with
  | some e => e.2
  | none => []

/-- The two player variants of `src/app.js`: `HumanPlayer` carries
email/username, `ComputerPlayer` carries difficulty and a word database. -/
inductive Player : Type
  | human (name : Word) (score : Nat) (id : Word) (email : Word) (username : Word)
  | computer (name : Word) (score : Nat) (id : Word) (difficulty : Word) (db : WordDB)
deriving DecidableEq

def Player.nameOf : Player → Word
  | .human n _ _ _ _ => n
  | .computer n _ _ _ _ => n

def Player.scoreOf : Player → Nat
  | .human _ s _ _ _ => s
  | .computer _ s _ _ _ => s

def Player.idOf : Player → Word
  | .human _ _ i _ _ => i
  | .computer _ _ i _ _ => i

def Player.emailOf : Player → Option Word
  | .human _ _ _ e _ => some e
  | .computer _ _ _ _ _ => none

def Player.usernameOf : Player → Option Word
  | .human _ _ _ _ u => some u
  | .computer _ _ _ _ _ => none

def Player.difficultyOf : Player → Option Word
  | .human _ _ _ _ _ => none
  | .computer _ _ _ d _ => some d

def Player.dbOf : Player → Option WordDB
  | .human _ _ _ _ _ => none
  | .computer _ _ _ _ db => some db

/-- Model of `Player.prototype.addPoint(p)`. -/
def Player.addPoints : Player → Nat → Player
  | .human n s i e u, p => .human n (s + p) i e u
  | .computer n s i d db, p => .computer n (s + p) i d db

/-- The game-level fields of `WordGame` that the game loop reads and writes. -/
structure GameState : Type where
  players : List Player
  usedWords : List Word
  currentCategory : Word
  lastWord : Word
  isGameActive : Bool
deriving DecidableEq

/-- Model of `Validator.validateWord`: `w && w.trim().length >= MIN_WORD_LENGTH`. -/
def validatorValidateWord (w : Word) : Bool :=
  decide (w ≠ []) && decide (2 ≤ (trim w).length)

/-- Model of `WordGame.#validateWord` of src/app.js: minimum length, no duplicate
canonical form, chain rule against the last word. -/
def validateWordB (used : List Word) (lastWord w : Word) : Bool :=
  if validatorValidateWord w = false then false
  else if jsToLower w ∈ used then false
  else if lastWord ≠ [] ∧ (jsToLower w).head? ≠ (jsToLower lastWord).getLast? then false
  else true

/-- The acceptance test of the game loop,
`if (word && this.#validateWord(word))`; `none` models a `null` move. -/
def submissionAccepted (g : GameState) (w : Option Word) : Bool :=
  match w with
  | none => false
  | some x => decide (x ≠ []) && validateWordB g.usedWords g.lastWord x

/-- The loop-local variables of `WordGame.#gameLoop` together with the game
state; `finished = true` models that the loop has returned. -/
structure LoopState : Type where
  game : GameState
  playerIdx : Nat
  skipped : Nat
  round : Nat
  finished : Bool
deriving DecidableEq

/-- The accepted-word branch of `WordGame.#gameLoop` (src/app.js): add the
canonical form, set the last word, award `min(floor(length/2), 3)` points,
reset the skip counter, advance the round, then test the win condition
`usedWords.size >= MAX_WORDS_FOR_WIN`. -/
def stepAccept (s : LoopState) (w : Option Word) : LoopState :=
  if (setAdd s.game.usedWords (jsToLower (w.getD []))).length ≥ 5 then
    { game := { s.game with
        usedWords := setAdd s.game.usedWords (jsToLower (w.getD [])),
        lastWord := w.getD [],
        players := modifyNth (fun p => Player.addPoints p (min ((w.getD []).length / 2) 3))
          s.playerIdx s.game.players,
        isGameActive := false },
      playerIdx := s.playerIdx, skipped := 0, round := s.round + 1, finished := true }
  else
    { game := { s.game with
        usedWords := setAdd s.game.usedWords (jsToLower (w.getD [])),
        lastWord := w.getD [],
        players := modifyNth (fun p => Player.addPoints p (min ((w.getD []).length / 2) 3))
          s.playerIdx s.game.players },
      playerIdx := (s.playerIdx + 1) % s.game.players.length,
      skipped := 0, round := s.round + 1, finished := false }

/-- One iteration of `WordGame.#gameLoop` (src/app.js) fed with the word the
current player submitted (`none` when `makeMove` returned `null`).  The loop
guard is `this.#isGameActive && skipped < GAME_CONFIG.MAX_SKIPPED_TURNS`; the
rejected branch increments `skipped` and returns once it reaches 2, without
touching `isGameActive`. -/
def step (s : LoopState) (w : Option Word) : LoopState :=
  if s.finished = true then s
  else if s.game.isGameActive = true ∧ s.skipped < 2 then
    if submissionAccepted s.game w = true then stepAccept s w
    else if s.skipped + 1 ≥ 2 then
      { s with skipped := s.skipped + 1, finished := true }
    else
      { s with skipped := s.skipped + 1,
               playerIdx := (s.playerIdx + 1) % s.game.players.length }
  else { s with finished := true }

/-- Feeding a whole list of submissions through the loop. -/
def run (s : LoopState) (ws : List (Option Word)) : LoopState := ws.foldl step s

/-- The state right after `#startNewGame` set `isGameActive = true`, cleared
`usedWords` and `lastWord`, and `#gameLoop` initialised its locals. -/
def initState (players : List Player) (cat : Word) : LoopState :=
  { game := { players := players, usedWords := [], currentCategory := cat,
              lastWord := [], isGameActive := true },
    playerIdx := 0, skipped := 0, round := 1, finished := false }

/-- Model of `WordGame.#showWinner`, which evaluates
`players.reduce((a,b) => a.score > b.score ? a : b)`. -/
def showWinnerPlayer (ps : List Player) : Option Player :=
  match ps with
  | [] => none
  | p :: rest =>
      some (rest.foldl (fun x y => if Player.scoreOf x > Player.scoreOf y then x else y) p)

/-! ### Concrete word data -/

def catCities : Word := "города".toList
def catAnimals : Word := "животные".toList
def catPlants : Word := "растения".toList
def easyW : Word := "easy".toList
def mediumW : Word := "medium".toList
def hardW : Word := "hard".toList

/-- The `ComputerPlayer` word database of src/app.js. -/
def appDefaultDB : WordDB :=
  [(catCities, ["Москва".toList, "Амстердам".toList, "Мадрид".toList, "Лондон".toList,
                "Осло".toList, "Киев".toList, "Варшава".toList, "Рим".toList,
                "Париж".toList, "Берлин".toList]),
   (catAnimals, ["Антилопа".toList, "Баран".toList, "Носорог".toList, "Гепард".toList,
                 "Дельфин".toList, "Енот".toList, "Жираф".toList, "Зебра".toList,
                 "Игуана".toList, "Кенгуру".toList]),
   (catPlants, ["Акация".toList, "Береза".toList, "Ромашка".toList, "Гвоздика".toList,
                "Дуб".toList, "Ель".toList, "Жасмин".toList, "Ирис".toList,
                "Кедр".toList, "Липа".toList])]

/-- The `ComputerPlayer` word database of src/unnamed/part_000 (its city list
differs from the one in src/app.js). -/
def p000DefaultDB : WordDB :=
  [(catCities, ["Москва".toList, "Амстердам".toList, "Мадрид".toList, "Лондон".toList,
                "Осло".toList, "Омск".toList, "Киев".toList, "Варшава".toList,
                "Афины".toList, "Сочи".toList]),
   (catAnimals, ["Антилопа".toList, "Баран".toList, "Носорог".toList, "Гепард".toList,
                 "Дельфин".toList, "Енот".toList, "Жираф".toList, "Зебра".toList,
                 "Игуана".toList, "Кенгуру".toList]),
   (catPlants, ["Акация".toList, "Береза".toList, "Ромашка".toList, "Гвоздика".toList,
                "Дуб".toList, "Ель".toList, "Жасмин".toList, "Ирис".toList,
                "Кедр".toList, "Липа".toList])]

/-! ### Computer opponent (src/app.js lines 149-163, src/unnamed/part_000 lines 149-177) -/

/-- Model of `ComputerPlayer.#getAvailableWords` (identical filter in both copies):
words of the category list whose canonical form is unused and which satisfy
the chain rule against the last word. -/
def getAvailableWords (db : WordDB) (lastWord : Word) (used : List Word) (cat : Word) :
    List Word :=
  (dbLookup db cat).filter (fun word =>
    (!decide (jsToLower word ∈ used)) &&
    (decide (lastWord = []) ||
      decide ((jsToLower word).head? = (jsToLower lastWord).getLast?)))

/-- Difficulty dispatch of src/app.js: `easy` takes the first candidate,
`hard` reduces with `a.length > b.length ? a : b`, the default (medium) picks
a random index, modelled by the extra argument `r`. -/
def selectByDifficulty (difficulty : Word) (words : List Word) (r : Nat) : Word :=
  if difficulty = easyW then words.headD []
  else if difficulty = hardW then
    words.foldl (fun x y => if x.length > y.length then x else y) (words.headD [])
  else words.getD (r % words.length) []

/-- Difficulty dispatch of src/unnamed/part_000
(`#selectWordByDifficulty`): its `hard` case reduces with
`current.length > longest.length ? current : longest`. -/
def selectByDifficulty000 (difficulty : Word) (words : List Word) (r : Nat) : Word :=
  if difficulty = easyW then words.headD []
  else if difficulty = hardW then
    words.foldl (fun x y => if y.length > x.length then y else x) (words.headD [])
  else words.getD (r % words.length) []

/-- Model of `ComputerPlayer.makeMove` of src/app.js (without the cosmetic delay):
`null` when no candidate exists. -/
def computerMakeMove (db : WordDB) (difficulty lastWord : Word) (used : List Word)
    (cat : Word) (r : Nat) : Option Word :=
  if getAvailableWords db lastWord used cat = [] then none
  else some (selectByDifficulty difficulty (getAvailableWords db lastWord used cat) r)

/-- Model of `ComputerPlayer.makeMove` of src/unnamed/part_000. -/
def computerMakeMove000 (db : WordDB) (difficulty lastWord : Word) (used : List Word)
    (cat : Word) (r : Nat) : Option Word :=
  if getAvailableWords db lastWord used cat = [] then none
  else some (selectByDifficulty000 difficulty (getAvailableWords db lastWord used cat) r)

/-! ### Snapshot codec (src/app.js lines 132-186, 361-382) -/

/-- One entry of the serialized `players` array; `Option` marks fields that a
hand-written snapshot may omit (`undefined` in JavaScript). -/
structure PlayerSnapshot : Type where
  name : Word
  score : Nat
  id : Word
  tag : Option Word
  email : Option Word
  username : Option Word
  difficulty : Option Word
deriving DecidableEq

/-- The serialized game produced by `WordGame.serialize`. -/
structure GameSnapshot : Type where
  players : List PlayerSnapshot
  usedWords : Option (List Word)
  currentCategory : Option Word
  lastWord : Option Word
  isGameActive : Option Bool
  currentUser : Option Word
deriving DecidableEq

def tHuman : Word := "HumanPlayer".toList
def tComp : Word := "ComputerPlayer".toList

/-- Model of `Player.prototype.serialize` plus the variant fields added by
`HumanPlayer.serialize` / `ComputerPlayer.serialize`; the discriminator is
`this.constructor.name`. -/
def playerSerialize : Player → PlayerSnapshot
  | .human n s i e u =>
      { name := n, score := s, id := i, tag := some tHuman,
        email := some e, username := some u, difficulty := none }
  | .computer n s i d _ =>
      { name := n, score := s, id := i, tag := some tComp,
        email := none, username := none, difficulty := some d }

/-- Player reconstruction inside `WordGame.deserialize` of src/app.js:
`playerData.type === "ComputerPlayer" ? new ComputerPlayer() : new
HumanPlayer("")` followed by `player.deserialize(playerData)`.  The
constructor gives the computer its default word database, which
`ComputerPlayer.deserialize` of src/app.js leaves untouched. -/
def deserializePlayer (ps : PlayerSnapshot) : Player :=
  if ps.tag = some tComp then
    Player.computer ps.name ps.score ps.id (jsOrW ps.difficulty mediumW) appDefaultDB
  else
    Player.human ps.name ps.score ps.id (jsOrW ps.email []) (jsOrW ps.username [])

/-- Player reconstruction of src/unnamed/part_000: identical except that
`ComputerPlayer.deserialize` resets the word database to
an object mapping each of the three categories to an empty list. -/
def db000AfterLoad : WordDB := [(catCities, []), (catAnimals, []), (catPlants, [])]

def deserializePlayer000 (ps : PlayerSnapshot) : Player :=
  if ps.tag = some tComp then
    Player.computer ps.name ps.score ps.id (jsOrW ps.difficulty mediumW) db000AfterLoad
  else
    Player.human ps.name ps.score ps.id (jsOrW ps.email []) (jsOrW ps.username [])

/-- Model of `WordGame.serialize`. -/
def gameSerialize (g : GameState) (user : Option Word) : GameSnapshot :=
  { players := g.players.map playerSerialize,
    usedWords := some g.usedWords,
    currentCategory := some g.currentCategory,
    lastWord := some g.lastWord,
    isGameActive := some g.isGameActive,
    currentUser := user }

/-- Model of `WordGame.deserialize` of src/app.js. -/
def gameDeserialize (d : GameSnapshot) : GameState :=
  { players := d.players.map deserializePlayer,
    usedWords := jsSetOfList (d.usedWords.getD []),
    currentCategory := jsOrW d.currentCategory [],
    lastWord := jsOrW d.lastWord [],
    isGameActive := jsOrB d.isGameActive }

/-- Composite used to state the round-trip property. -/
def roundtripApp (g : GameState) (user : Option Word) : GameState :=
  gameDeserialize (gameSerialize g user)

/-! ### The game loop of src/unnamed/part_000 (lines 326-361) -/

/-- Model of `WordGame.#validateWord` of src/unnamed/part_000: it checks
`word.length < 2` on the raw word (no trim), then duplicate and chain rule. -/
def validateWord000 (used : List Word) (lastWord w : Word) : Bool :=
  if w = [] ∨ w.length < 2 then false
  else
    (!decide (jsToLower w ∈ used)) &&
    (decide (lastWord = []) ||
      decide ((jsToLower w).head? = (jsToLower lastWord).getLast?))

/-- Acceptance test of the part_000 game loop. -/
def accepted000 (g : GameState) (w : Option Word) : Bool :=
  match w with
  | none => false
  | some x => decide (x ≠ []) && validateWord000 g.usedWords g.lastWord x

/-- Loop state of the part_000 game loop (no round counter; the loop has no
early returns, so no `finished` flag is needed: the guard
`isGameActive && skippedTurns < 2` is the only gate). -/
structure LoopState000 : Type where
  game : GameState
  playerIdx : Nat
  skipped : Nat
deriving DecidableEq

/-- Tail of a part_000 loop iteration: advance the turn index, then run the
win check `usedWords.size >= 5`, which only clears the active flag (the loop
then exits through its guard). -/
def advanceAndCheck000 (s : LoopState000) : LoopState000 :=
  if s.game.usedWords.length ≥ 5 then
    { s with playerIdx := (s.playerIdx + 1) % s.game.players.length,
             game := { s.game with isGameActive := false } }
  else
    { s with playerIdx := (s.playerIdx + 1) % s.game.players.length }

/-- One iteration of the part_000 game loop: on acceptance it calls
`player.addPoint()` (a single point); the turn index advances and the win
check runs after either branch. -/
def step000 (s : LoopState000) (w : Option Word) : LoopState000 :=
  if s.game.isGameActive = true ∧ s.skipped < 2 then
    if accepted000 s.game w = true then
      advanceAndCheck000
        { s with
          game := { s.game with
                    usedWords := setAdd s.game.usedWords (jsToLower (w.getD [])),
                    lastWord := w.getD [],
                    players := modifyNth (fun p => Player.addPoints p 1)
                      s.playerIdx s.game.players },
          skipped := 0 }
    else
      advanceAndCheck000 { s with skipped := s.skipped + 1 }
  else s

/-- Score of the player at an index (0 when out of range). -/
def scoreAt (ps : List Player) (i : Nat) : Nat :=
  ((ps.get? i).map Player.scoreOf).getD 0

/-- Invariant of the src/app.js game loop: the used-word set never exceeds 5
and the active flag is cleared exactly at size 5. -/
def WinInv (s : LoopState) : Prop :=
  s.game.usedWords.length ≤ 5 ∧
  (s.game.isGameActive = false ↔ s.game.usedWords.length = 5) ∧
  (s.finished = false → s.game.usedWords.length < 5 ∧ s.game.isGameActive = true)

/-! ### Concrete instances used in witnesses and counterexamples -/

def pA : Player := Player.human "Анна".toList 0 "p1".toList [] []

def pB : Player := Player.human "Борис".toList 0 "p2".toList [] []

def moscowW : Word := "Moscow".toList

def osloW : Word := "Oslo".toList

/-- A fresh two-player game on the cities category. -/
def demoInit : LoopState := initState [pA, pB] catCities

/-- The loop state after one rejected submission (`skipped = 1`). -/
def c1Mid : LoopState := step demoInit none

/-- The loop state after two consecutive rejected submissions from a fresh
game. -/
def c1Attrition : LoopState := run (initState [pA, pB] catCities) [none, none]

/-- A fresh single-player part_000 loop state on the cities category. -/
def c3Init000 : LoopState000 :=
  { game := { players := [pA], usedWords := [], currentCategory := catCities,
              lastWord := [], isGameActive := true },
    playerIdx := 0, skipped := 0 }

/-- A game state whose last accepted word is "Moscow". -/
def c4Game : GameState :=
  { players := [pA, pB], usedWords := ["moscow".toList], currentCategory := catCities,
    lastWord := moscowW, isGameActive := true }

def abW : Word := "ab".toList

def cdW : Word := "cd".toList

/-- Two candidates of equal (maximal) length. -/
def tieWords : List Word := [abW, cdW]

/-- A game state with one human and one computer player. -/
def demoGame : GameState :=
  { players := [Player.human "Ann".toList 2 "h1".toList "a@b.c".toList "ann".toList,
                Player.computer "Комп".toList 1 "c1".toList mediumW appDefaultDB],
    usedWords := ["москва".toList],
    currentCategory := catCities, lastWord := "Москва".toList, isGameActive := true }

/-- A serialized computer player. -/
def snapComp : PlayerSnapshot :=
  { name := "Компьютер".toList, score := 0, id := "c9".toList, tag := some tComp,
    email := none, username := none, difficulty := none }

/-- A player snapshot with an unknown discriminator tag and missing optional
fields. -/
def snapUnknown : PlayerSnapshot :=
  { name := "X".toList, score := 0, id := "i0".toList, tag := some "Alien".toList,
    email := none, username := none, difficulty := none }

/-- A game snapshot with every optional field missing. -/
def snapBare : GameSnapshot :=
  { players := [snapUnknown], usedWords := none, currentCategory := none,
    lastWord := none, isGameActive := none, currentUser := none }

/-! ### Helper lemmas -/

lemma trim_nil : trim [] = [] := rfl

lemma setAdd_length_of_not_mem {l : List Word} {x : Word} (h : x ∉ l) :
    (setAdd l x).length = l.length + 1 := by
  simp [setAdd, h]

lemma mem_setAdd {l : List Word} {x w : Word} :
    w ∈ setAdd l x ↔ w ∈ l ∨ w = x := by
  by_cases h : x ∈ l
  · simp only [setAdd, if_pos h]
    exact ⟨Or.inl, fun hw => hw.elim id (fun e => e ▸ h)⟩
  · simp [setAdd, h]

lemma mem_foldl_setAdd (l : List Word) :
    ∀ (acc : List Word) (w : Word), w ∈ l.foldl setAdd acc ↔ w ∈ acc ∨ w ∈ l := by
  induction l with
  | nil => intro acc w; simp
  | cons b t ih =>
    intro acc w
    rw [List.foldl_cons, ih, mem_setAdd]
    simp only [List.mem_cons]
    tauto

lemma mem_jsSetOfList {l : List Word} {w : Word} : w ∈ jsSetOfList l ↔ w ∈ l := by
  rw [jsSetOfList, mem_foldl_setAdd]
  simp

lemma modifyNth_get {α : Type} (f : α → α) :
    ∀ (n : Nat) (l : List α), (modifyNth f n l).get? n = (l.get? n).map f
  | _, [] => by simp [modifyNth]
  | 0, a :: t => by simp [modifyNth]
  | n + 1, a :: t => by
      simp only [modifyNth, List.get?_cons_succ]
      exact modifyNth_get f n t

lemma addPoints_score (p : Player) (k : Nat) :
    (Player.addPoints p k).scoreOf = p.scoreOf + k := by
  cases p <;> rfl

lemma scoreAt_modifyNth {ps : List Player} {i k : Nat} (h : i < ps.length) :
    scoreAt (modifyNth (fun p => Player.addPoints p k) i ps) i = scoreAt ps i + k := by
  simp only [scoreAt]
  rw [modifyNth_get]
  cases hq : ps.get? i with
  | none =>
    have := List.get?_eq_none.mp hq
    omega
  | some p => simp [addPoints_score]

lemma advanceAndCheck000_players (s : LoopState000) :
    (advanceAndCheck000 s).game.players = s.game.players := by
  rw [advanceAndCheck000]
  by_cases h : s.game.usedWords.length ≥ 5
  · rw [if_pos h]
  · rw [if_neg h]

lemma jsOrW_some_nil_default (s : Word) : jsOrW (some s) [] = s := by
  by_cases h : s = [] <;> simp [jsOrW, h]

lemma jsOrW_some_of_ne {s : Word} (d : Word) (h : s ≠ []) : jsOrW (some s) d = s := by
  simp [jsOrW, h]

lemma validateWordB_true_iff (used : List Word) (lastWord x : Word) :
    validateWordB used lastWord x = true ↔
      (x ≠ [] ∧ 2 ≤ (trim x).length) ∧ jsToLower x ∉ used ∧
      (lastWord = [] ∨ (jsToLower x).head? = (jsToLower lastWord).getLast?) := by
  unfold validateWordB
  split_ifs with h1 h2 h3
  · simp only [Bool.false_eq_true, false_iff]
    rintro ⟨ha, _, _⟩
    rw [validatorValidateWord] at h1
    simp [ha.1, ha.2] at h1
  · simp only [Bool.false_eq_true, false_iff]
    rintro ⟨_, hb, _⟩
    exact hb h2
  · simp only [Bool.false_eq_true, false_iff]
    rintro ⟨_, _, hc⟩
    rcases hc with h | h
    · exact h3.1 h
    · exact h3.2 h
  · simp only [true_iff]
    have hval : validatorValidateWord x = true := by
      revert h1; cases validatorValidateWord x <;> simp
    rw [validatorValidateWord, Bool.and_eq_true, decide_eq_true_eq, decide_eq_true_eq] at hval
    refine ⟨hval, h2, ?_⟩
    by_cases hl : lastWord = []
    · exact Or.inl hl
    · right
      by_contra hne
      exact h3 ⟨hl, hne⟩

lemma accepted_iff (g : GameState) (x : Word) :
    submissionAccepted g (some x) = true ↔
      2 ≤ (trim x).length ∧ jsToLower x ∉ g.usedWords ∧
      (g.lastWord = [] ∨ (jsToLower x).head? = (jsToLower g.lastWord).getLast?) := by
  simp only [submissionAccepted, Bool.and_eq_true, decide_eq_true_eq, validateWordB_true_iff]
  constructor
  · rintro ⟨_, ⟨_, h2⟩, h3, h4⟩
    exact ⟨h2, h3, h4⟩
  · rintro ⟨h2, h3, h4⟩
    have hx : x ≠ [] := by
      intro he
      rw [he] at h2
      exact absurd h2 (by decide)
    exact ⟨hx, ⟨hx, h2⟩, h3, h4⟩

/-- The reduce combinator `(a, b) => m(a) > m(b) ? a : b` (used by
`#showWinner` with the score and by the hard selector of src/app.js with the
length) yields the LAST element of maximal measure: everything before its
occurrence is `≤`, everything after is strictly smaller. -/
lemma foldl_last_max_spec {α : Type} (m : α → Nat) :
    ∀ (l : List α) (a : α), ∃ l1 l2,
      a :: l = l1 ++ (l.foldl (fun x y => if m x > m y then x else y) a) :: l2 ∧
      (∀ q ∈ l1, m q ≤ m (l.foldl (fun x y => if m x > m y then x else y) a)) ∧
      (∀ q ∈ l2, m q < m (l.foldl (fun x y => if m x > m y then x else y) a)) := by
  intro l
  induction l with
  | nil =>
    intro a
    exact ⟨[], [], rfl, by simp, by simp⟩
  | cons b t ih =>
    intro a
    rw [List.foldl_cons]
    by_cases hab : m a > m b
    · rw [if_pos hab]
      obtain ⟨m1, m2, heq, hle, hlt⟩ := ih a
      cases m1 with
      | nil =>
        rw [List.nil_append, List.cons.injEq] at heq
        obtain ⟨hr, hm2⟩ := heq
        refine ⟨[], b :: t, ?_, by simp, ?_⟩
        · rw [List.nil_append, ← hr]
        · intro q hq
          rcases List.mem_cons.mp hq with h | h
          · subst h
            rw [← hr]
            exact hab
          · exact hlt q (hm2 ▸ h)
      | cons x m1t =>
        rw [List.cons_append, List.cons.injEq] at heq
        obtain ⟨hx, ht⟩ := heq
        refine ⟨a :: b :: m1t, m2, ?_, ?_, hlt⟩
        · rw [List.cons_append, List.cons_append, ← ht]
        · intro q hq
          have hamem : m a ≤ m (t.foldl (fun x y => if m x > m y then x else y) a) := by
            apply hle
            rw [hx]
            exact List.mem_cons_self x m1t
          rcases List.mem_cons.mp hq with h | h
          · subst h
            exact hamem
          rcases List.mem_cons.mp h with h2 | h2
          · subst h2
            exact le_trans (Nat.le_of_lt hab) hamem
          · exact hle q (List.mem_cons_of_mem x h2)
    · rw [if_neg hab]
      have hba : m a ≤ m b := Nat.le_of_not_lt hab
      obtain ⟨m1, m2, heq, hle, hlt⟩ := ih b
      cases m1 with
      | nil =>
        rw [List.nil_append, List.cons.injEq] at heq
        obtain ⟨hr, hm2⟩ := heq
        refine ⟨[a], t, ?_, ?_, ?_⟩
        · rw [List.cons_append, List.nil_append, ← hr]
        · intro q hq
          rw [List.mem_singleton] at hq
          subst hq
          exact le_trans hba (le_of_eq (congrArg m hr))
        · intro q hq
          exact hlt q (hm2 ▸ hq)
      | cons x m1t =>
        rw [List.cons_append, List.cons.injEq] at heq
        obtain ⟨hx, ht⟩ := heq
        refine ⟨a :: b :: m1t, m2, ?_, ?_, hlt⟩
        · rw [List.cons_append, List.cons_append, ← ht]
        · intro q hq
          have hbmem : m b ≤ m (t.foldl (fun x y => if m x > m y then x else y) b) := by
            apply hle
            rw [hx]
            exact List.mem_cons_self x m1t
          rcases List.mem_cons.mp hq with h | h
          · subst h
            exact le_trans hba hbmem
          rcases List.mem_cons.mp h with h2 | h2
          · subst h2
            exact hbmem
          · exact hle q (List.mem_cons_of_mem x h2)

/-- The reduce combinator `(longest, current) => m(current) > m(longest) ?
current : longest` (the hard selector of src/unnamed/part_000) yields the
FIRST element of maximal measure: everything before its occurrence is
strictly smaller, everything after is `≤`. -/
lemma foldl_first_max_spec {α : Type} (m : α → Nat) :
    ∀ (l : List α) (a : α), ∃ l1 l2,
      a :: l = l1 ++ (l.foldl (fun x y => if m y > m x then y else x) a) :: l2 ∧
      (∀ q ∈ l1, m q < m (l.foldl (fun x y => if m y > m x then y else x) a)) ∧
      (∀ q ∈ l2, m q ≤ m (l.foldl (fun x y => if m y > m x then y else x) a)) := by
  intro l
  induction l with
  | nil =>
    intro a
    exact ⟨[], [], rfl, by simp, by simp⟩
  | cons b t ih =>
    intro a
    rw [List.foldl_cons]
    by_cases hba : m b > m a
    · rw [if_pos hba]
      obtain ⟨m1, m2, heq, hlt, hle⟩ := ih b
      cases m1 with
      | nil =>
        rw [List.nil_append, List.cons.injEq] at heq
        obtain ⟨hr, hm2⟩ := heq
        refine ⟨[a], t, ?_, ?_, ?_⟩
        · rw [List.cons_append, List.nil_append, ← hr]
        · intro q hq
          rw [List.mem_singleton] at hq
          subst hq
          exact lt_of_lt_of_le hba (le_of_eq (congrArg m hr))
        · intro q hq
          exact hle q (hm2 ▸ hq)
      | cons x m1t =>
        rw [List.cons_append, List.cons.injEq] at heq
        obtain ⟨hx, ht⟩ := heq
        refine ⟨a :: b :: m1t, m2, ?_, ?_, hle⟩
        · rw [List.cons_append, List.cons_append, ← ht]
        · intro q hq
          have hbmem : m b < m (t.foldl (fun x y => if m y > m x then y else x) b) := by
            apply hlt
            rw [hx]
            exact List.mem_cons_self x m1t
          rcases List.mem_cons.mp hq with h | h
          · subst h
            exact lt_trans hba hbmem
          rcases List.mem_cons.mp h with h2 | h2
          · subst h2
            exact hbmem
          · exact hlt q (List.mem_cons_of_mem x h2)
    · rw [if_neg hba]
      have hab : m b ≤ m a := Nat.le_of_not_lt hba
      obtain ⟨m1, m2, heq, hlt, hle⟩ := ih a
      cases m1 with
      | nil =>
        rw [List.nil_append, List.cons.injEq] at heq
        obtain ⟨hr, hm2⟩ := heq
        refine ⟨[], b :: t, ?_, by simp, ?_⟩
        · rw [List.nil_append, ← hr]
        · intro q hq
          rcases List.mem_cons.mp hq with h | h
          · subst h
            exact le_trans hab (le_of_eq (congrArg m hr))
          · exact hle q (hm2 ▸ h)
      | cons x m1t =>
        rw [List.cons_append, List.cons.injEq] at heq
        obtain ⟨hx, ht⟩ := heq
        refine ⟨a :: b :: m1t, m2, ?_, ?_, hle⟩
        · rw [List.cons_append, List.cons_append, ← ht]
        · intro q hq
          have hamem : m a < m (t.foldl (fun x y => if m y > m x then y else x) a) := by
            apply hlt
            rw [hx]
            exact List.mem_cons_self x m1t
          rcases List.mem_cons.mp hq with h | h
          · subst h
            exact hamem
          rcases List.mem_cons.mp h with h2 | h2
          · subst h2
            exact lt_of_le_of_lt hab hamem
          · exact hlt q (List.mem_cons_of_mem x h2)

lemma dbLookup_db000AfterLoad (cat : Word) : dbLookup db000AfterLoad cat = [] := by
  unfold dbLookup
  cases hf : List.find? (fun e => e.1 == cat) db000AfterLoad with
  | none => rfl
  | some e =>
    have he := List.mem_of_find?_eq_some hf
    simp only [db000AfterLoad, List.mem_cons, List.not_mem_nil, or_false] at he
    rcases he with h | h | h <;> subst h <;> rfl

lemma accepted_some (g : GameState) (w : Option Word)
    (ha : submissionAccepted g w = true) : ∃ x, w = some x := by
  cases w with
  | none => simp [submissionAccepted] at ha
  | some x => exact ⟨x, rfl⟩

lemma step_accept_growth (s : LoopState) (w : Option Word)
    (hf : s.finished = false) (hg : s.game.isGameActive = true) (hs : s.skipped < 2)
    (ha : submissionAccepted s.game w = true) :
    (step s w).game.usedWords.length = s.game.usedWords.length + 1 := by
  obtain ⟨x, rfl⟩ := accepted_some s.game w ha
  have hnm : jsToLower x ∉ s.game.usedWords := ((accepted_iff s.game x).mp ha).2.1
  rw [step, if_neg (by simp [hf]), if_pos ⟨hg, hs⟩, if_pos ha, stepAccept]
  by_cases hwin : (setAdd s.game.usedWords (jsToLower ((some x).getD []))).length ≥ 5
  · rw [if_pos hwin]
    simpa using setAdd_length_of_not_mem hnm
  · rw [if_neg hwin]
    simpa using setAdd_length_of_not_mem hnm

lemma winInv_step (s : LoopState) (w : Option Word) (h : WinInv s) : WinInv (step s w) := by
  obtain ⟨hlen, hiff, hfin⟩ := h
  by_cases hf : s.finished = true
  · rw [step, if_pos hf]
    exact ⟨hlen, hiff, hfin⟩
  · have hf' : s.finished = false := by revert hf; cases s.finished <;> simp
    obtain ⟨hlt, hact⟩ := hfin hf'
    rw [step, if_neg hf]
    by_cases hg : s.game.isGameActive = true ∧ s.skipped < 2
    · rw [if_pos hg]
      by_cases ha : submissionAccepted s.game w = true
      · rw [if_pos ha]
        obtain ⟨x, rfl⟩ := accepted_some s.game w ha
        have hnm : jsToLower x ∉ s.game.usedWords := ((accepted_iff s.game x).mp ha).2.1
        have hlen1 : (setAdd s.game.usedWords (jsToLower x)).length
            = s.game.usedWords.length + 1 := setAdd_length_of_not_mem hnm
        rw [stepAccept]
        simp only [Option.getD_some]
        by_cases hwin : (setAdd s.game.usedWords (jsToLower x)).length ≥ 5
        · rw [if_pos hwin]
          refine ⟨?_, ?_, ?_⟩
          · show (setAdd s.game.usedWords (jsToLower x)).length ≤ 5
            omega
          · constructor
            · intro _
              show (setAdd s.game.usedWords (jsToLower x)).length = 5
              omega
            · intro _
              show (false : Bool) = false
              rfl
          · intro hcon
            exact absurd hcon (by simp)
        · rw [if_neg hwin]
          refine ⟨?_, ?_, ?_⟩
          · show (setAdd s.game.usedWords (jsToLower x)).length ≤ 5
            omega
          · show s.game.isGameActive = false ↔ (setAdd s.game.usedWords (jsToLower x)).length = 5
            rw [hact]
            constructor
            · intro hcon
              exact absurd hcon (by simp)
            · intro hl
              exact absurd hl (by omega)
          · intro _
            refine ⟨?_, ?_⟩
            · show (setAdd s.game.usedWords (jsToLower x)).length < 5
              omega
            · show s.game.isGameActive = true
              exact hact
      · rw [if_neg ha]
        by_cases hskip : s.skipped + 1 ≥ 2
        · rw [if_pos hskip]
          exact ⟨hlen, hiff, fun hcon => by simp at hcon⟩
        · rw [if_neg hskip]
          exact ⟨hlen, hiff, fun _ => ⟨hlt, hact⟩⟩
    · rw [if_neg hg]
      exact ⟨hlen, hiff, fun hcon => by simp at hcon⟩

lemma winInv_run (ws : List (Option Word)) :
    ∀ s : LoopState, WinInv s → WinInv (run s ws) := by
  induction ws with
  | nil => intro s h; exact h
  | cons w t ih =>
    intro s h
    rw [run, List.foldl_cons]
    exact ih (step s w) (winInv_step s w h)

lemma winInv_init (players : List Player) (cat : Word) : WinInv (initState players cat) := by
  refine ⟨by simp [initState], by simp [initState], ?_⟩
  intro _
  simp [initState]

/-! ### Claim theorems -/

/-- C2: starting from a fresh game, the used-word set never exceeds 5 words,
the loop has returned with the active flag cleared (the won-by-words terminal
state) exactly when the set size is 5, every non-terminal state has fewer
than 5 words, and each accepted submission grows the set by exactly one
element. -/
theorem c2_word_count_exact (players : List Player) (cat : Word)
    (ws : List (Option Word)) :
    (run (initState players cat) ws).game.usedWords.length ≤ 5 ∧
    ((run (initState players cat) ws).finished = true ∧
        (run (initState players cat) ws).game.isGameActive = false ↔
      (run (initState players cat) ws).game.usedWords.length = 5) ∧
    ((run (initState players cat) ws).finished = false →
      (run (initState players cat) ws).game.usedWords.length < 5) ∧
    (∀ (s : LoopState) (w : Option Word), s.finished = false →
      s.game.isGameActive = true → s.skipped < 2 → submissionAccepted s.game w = true →
      (step s w).game.usedWords.length = s.game.usedWords.length + 1) := by
  obtain ⟨hlen, hiff, hfin⟩ := winInv_run ws (initState players cat) (winInv_init players cat)
  refine ⟨hlen, ?_, ?_, ?_⟩
  · constructor
    · rintro ⟨_, hA⟩
      exact hiff.mp hA
    · intro h5
      have hfin2 : (run (initState players cat) ws).finished = true := by
        by_contra hc
        have hf : (run (initState players cat) ws).finished = false := by
          revert hc
          cases (run (initState players cat) ws).finished <;> simp
        have hlt := (hfin hf).1
        omega
      exact ⟨hfin2, hiff.mpr h5⟩
  · intro hf
    exact (hfin hf).1
  · intro s w hf hg hs ha
    exact step_accept_growth s w hf hg hs ha

/-- Witness for C2 at a concrete run: one accepted word. -/
theorem c2_word_count_exact_witness :
    (run (initState [pA, pB] catCities) [some moscowW]).game.usedWords.length ≤ 5 ∧
    ((run (initState [pA, pB] catCities) [some moscowW]).finished = false →
      (run (initState [pA, pB] catCities) [some moscowW]).game.usedWords.length < 5) :=
  ⟨(c2_word_count_exact [pA, pB] catCities [some moscowW]).1,
   (c2_word_count_exact [pA, pB] catCities [some moscowW]).2.2.1⟩

/-- C4: a submitted word is rejected exactly when it is empty or whitespace
only, or its trimmed length is below 2, or its case-folded form is already
used, or a last word exists whose last case-folded character differs from the
first case-folded character of the submission. -/
theorem c4_rejection_iff (g : GameState) (x : Word) :
    submissionAccepted g (some x) = false ↔
      trim x = [] ∨ (trim x).length < 2 ∨ jsToLower x ∈ g.usedWords ∨
      (g.lastWord ≠ [] ∧ (jsToLower x).head? ≠ (jsToLower g.lastWord).getLast?) := by
  have hiff := accepted_iff g x
  constructor
  · intro hrej
    by_contra hcon
    push_neg at hcon
    obtain ⟨_, h2, h3, h4⟩ := hcon
    have hacc : submissionAccepted g (some x) = true := by
      rw [hiff]
      refine ⟨by omega, h3, ?_⟩
      by_cases hl : g.lastWord = []
      · exact Or.inl hl
      · exact Or.inr (h4 hl)
    rw [hrej] at hacc
    exact absurd hacc (by simp)
  · intro hrej
    cases hacc : submissionAccepted g (some x) with
    | false => rfl
    | true =>
      obtain ⟨h2, h3, h4⟩ := hiff.mp hacc
      exfalso
      rcases hrej with h | h | h | h
      · rw [h] at h2
        exact absurd h2 (by decide)
      · omega
      · exact h3 h
      · rcases h4 with hl | hl
        · exact h.1 hl
        · exact h.2 hl

/-- Witness for C4: "Oslo" after "Moscow" is rejected (chain mismatch). -/
theorem c4_rejection_iff_witness : submissionAccepted c4Game (some osloW) = false :=
  (c4_rejection_iff c4Game osloW).mpr (by decide)

/-- C5: a rejected submission increments the skip counter by exactly one and
leaves the used-word set, the last word and every player (hence every score)
unchanged. -/
theorem c5_reject_frame (s : LoopState) (w : Option Word)
    (hf : s.finished = false) (hg : s.game.isGameActive = true) (hs : s.skipped < 2)
    (hr : submissionAccepted s.game w = false) :
    (step s w).skipped = s.skipped + 1 ∧
    (step s w).game.usedWords = s.game.usedWords ∧
    (step s w).game.lastWord = s.game.lastWord ∧
    (step s w).game.players = s.game.players := by
  rw [step, if_neg (by simp [hf]), if_pos ⟨hg, hs⟩, if_neg (by simp [hr])]
  by_cases hskip : s.skipped + 1 ≥ 2
  · rw [if_pos hskip]
    exact ⟨rfl, rfl, rfl, rfl⟩
  · rw [if_neg hskip]
    exact ⟨rfl, rfl, rfl, rfl⟩

/-- Witness for C5 at a concrete rejected (null) submission. -/
theorem c5_reject_frame_witness :
    (step demoInit none).skipped = demoInit.skipped + 1 ∧
    (step demoInit none).game.usedWords = demoInit.game.usedWords ∧
    (step demoInit none).game.lastWord = demoInit.game.lastWord ∧
    (step demoInit none).game.players = demoInit.game.players :=
  c5_reject_frame demoInit none (by decide) (by decide) (by decide) (by decide)

/-- C8: the candidate set of the computer is exactly the category words whose
canonical form is unused and which satisfy the chain rule (vacuously when the
last word is empty), and `makeMove` returns `null` exactly when this set is
empty. -/
theorem c8_candidate_set (db : WordDB) (difficulty lastWord : Word) (used : List Word)
    (cat : Word) (r : Nat) :
    (∀ x, x ∈ getAvailableWords db lastWord used cat ↔
      x ∈ dbLookup db cat ∧ jsToLower x ∉ used ∧
      (lastWord = [] ∨ (jsToLower x).head? = (jsToLower lastWord).getLast?)) ∧
    (computerMakeMove db difficulty lastWord used cat r = none ↔
      getAvailableWords db lastWord used cat = []) := by
  constructor
  · intro x
    rw [getAvailableWords, List.mem_filter]
    simp only [Bool.and_eq_true, Bool.or_eq_true, Bool.not_eq_true', decide_eq_true_eq,
      decide_eq_false_iff_not]
  · rw [computerMakeMove]
    by_cases he : getAvailableWords db lastWord used cat = []
    · rw [if_pos he]
      simp [he]
    · rw [if_neg he]
      simp [he]

/-- Witness for C8: no cities start the chain when the category is unknown. -/
theorem c8_candidate_set_witness :
    computerMakeMove appDefaultDB easyW [] [] ("x".toList) 0 = none :=
  (c8_candidate_set appDefaultDB easyW [] [] ("x".toList) 0).2.mpr (by decide)

/-- C10: in src/unnamed/part_000, a deserialized computer player carries the
emptied word database, its candidate set is empty in every game context, and
its `makeMove` always returns `null`. -/
theorem c10_restored_computer_skips (ps : PlayerSnapshot) (h : ps.tag = some tComp)
    (lastWord : Word) (used : List Word) (cat : Word) (r : Nat) :
    Player.dbOf (deserializePlayer000 ps) = some db000AfterLoad ∧
    getAvailableWords db000AfterLoad lastWord used cat = [] ∧
    computerMakeMove000 db000AfterLoad
      ((Player.difficultyOf (deserializePlayer000 ps)).getD mediumW)
      lastWord used cat r = none := by
  have hempty : getAvailableWords db000AfterLoad lastWord used cat = [] := by
    rw [getAvailableWords, dbLookup_db000AfterLoad]
    rfl
  refine ⟨?_, hempty, ?_⟩
  · rw [deserializePlayer000, if_pos h]
    rfl
  · rw [computerMakeMove000, if_pos hempty]

/-- Witness for C10 at a concrete snapshot and context. -/
theorem c10_restored_computer_skips_witness :
    Player.dbOf (deserializePlayer000 snapComp) = some db000AfterLoad ∧
    computerMakeMove000 db000AfterLoad
      ((Player.difficultyOf (deserializePlayer000 snapComp)).getD mediumW)
      [] [] catCities 0 = none :=
  ⟨(c10_restored_computer_skips snapComp rfl [] [] catCities 0).1,
   (c10_restored_computer_skips snapComp rfl [] [] catCities 0).2.2⟩

/-- C1 counterexample: after two consecutive rejections from a fresh game the
loop has returned, but the active flag is still `true` (the claim says it is
set to `false`), and with tied scores the winner computed by `#showWinner` is
the SECOND player `pB`, not the earliest player `pA`. -/
theorem c1_counterexample :
    c1Attrition.finished = true ∧
    c1Attrition.game.isGameActive = true ∧
    Player.scoreOf pA = Player.scoreOf pB ∧
    c1Attrition.game.players = [pA, pB] ∧
    showWinnerPlayer c1Attrition.game.players = some pB ∧
    pB ≠ pA := by decide

/-- C1 (amended): when a second consecutive submission is rejected, the loop
returns (and stays terminal), the whole game state including the active flag
is left unchanged (the flag is NOT set to false on attrition), and the winner
is a player of maximal score where every player occurring LATER in turn order
has a strictly smaller score (ties go to the latest tied player). -/
theorem c1_attrition_amended (s : LoopState) (w : Option Word)
    (hf : s.finished = false) (hg : s.game.isGameActive = true) (hs : s.skipped = 1)
    (hr : submissionAccepted s.game w = false) :
    (step s w).finished = true ∧
    (∀ w2, step (step s w) w2 = step s w) ∧
    (step s w).game = s.game ∧
    (step s w).game.isGameActive = true ∧
    (∀ p rest, (step s w).game.players = p :: rest →
      ∃ winner l1 l2,
        showWinnerPlayer (step s w).game.players = some winner ∧
        (step s w).game.players = l1 ++ winner :: l2 ∧
        (∀ q ∈ l1, Player.scoreOf q ≤ Player.scoreOf winner) ∧
        (∀ q ∈ l2, Player.scoreOf q < Player.scoreOf winner)) := by
  have hstep : step s w = { s with skipped := s.skipped + 1, finished := true } := by
    rw [step, if_neg (by simp [hf]), if_pos ⟨hg, by omega⟩, if_neg (by simp [hr]),
      if_pos (by omega)]
  rw [hstep]
  refine ⟨rfl, ?_, rfl, hg, ?_⟩
  · intro w2
    rw [step, if_pos rfl]
  · intro p rest hp
    have hp2 : s.game.players = p :: rest := hp
    show ∃ winner l1 l2, showWinnerPlayer s.game.players = some winner ∧
      s.game.players = l1 ++ winner :: l2 ∧
      (∀ q ∈ l1, Player.scoreOf q ≤ Player.scoreOf winner) ∧
      (∀ q ∈ l2, Player.scoreOf q < Player.scoreOf winner)
    rw [hp2, showWinnerPlayer]
    obtain ⟨l1, l2, heq, hle, hlt⟩ := foldl_last_max_spec Player.scoreOf rest p
    exact ⟨_, l1, l2, rfl, heq, hle, hlt⟩

/-- Witness for the amended C1 at a concrete state with one prior skip. -/
theorem c1_attrition_amended_witness :
    (step c1Mid none).finished = true ∧ (step c1Mid none).game.isGameActive = true :=
  ⟨(c1_attrition_amended c1Mid none (by decide) (by decide) (by decide) (by decide)).1,
   (c1_attrition_amended c1Mid none (by decide) (by decide) (by decide) (by decide)).2.2.2.1⟩

/-- C3 counterexample: in the copy at src/unnamed/part_000 an accepted word
awards a flat single point — accepting "Moscow" (length 6) as the first word
gives the acting player score 1, not `min(floor(6/2), 3) = 3`. -/
theorem c3_counterexample :
    scoreAt (step000 c3Init000 (some moscowW)).game.players 0 = 1 ∧
    min (moscowW.length / 2) 3 = 3 ∧ (1 : Nat) ≠ 3 := by decide

/-- C3 (amended): in src/app.js each accepted word awards the acting player
exactly `min(floor(length/2), 3)` points, while in the duplicate copy
src/unnamed/part_000 each accepted word awards exactly 1 point. -/
theorem c3_scoring_amended :
    (∀ (s : LoopState) (x : Word), s.finished = false → s.game.isGameActive = true →
      s.skipped < 2 → submissionAccepted s.game (some x) = true →
      s.playerIdx < s.game.players.length →
      scoreAt (step s (some x)).game.players s.playerIdx =
        scoreAt s.game.players s.playerIdx + min (x.length / 2) 3) ∧
    (∀ (t : LoopState000) (x : Word), t.game.isGameActive = true → t.skipped < 2 →
      accepted000 t.game (some x) = true → t.playerIdx < t.game.players.length →
      scoreAt (step000 t (some x)).game.players t.playerIdx =
        scoreAt t.game.players t.playerIdx + 1) := by
  constructor
  · intro s x hf hg hs ha hi
    rw [step, if_neg (by simp [hf]), if_pos ⟨hg, hs⟩, if_pos ha, stepAccept]
    simp only [Option.getD_some]
    by_cases hwin : (setAdd s.game.usedWords (jsToLower x)).length ≥ 5
    · rw [if_pos hwin]
      exact scoreAt_modifyNth hi
    · rw [if_neg hwin]
      exact scoreAt_modifyNth hi
  · intro t x hg hs ha hi
    rw [step000, if_pos ⟨hg, hs⟩, if_pos ha, advanceAndCheck000_players]
    exact scoreAt_modifyNth hi

/-- Witness for the amended C3: "Moscow" as first word awards 3 points in the
src/app.js loop. -/
theorem c3_scoring_amended_witness :
    scoreAt (step demoInit (some moscowW)).game.players 0 =
      scoreAt demoInit.game.players 0 + 3 := by
  have h := c3_scoring_amended.1 demoInit moscowW (by decide) (by decide) (by decide)
    (by decide) (by decide)
  have h3 : min (moscowW.length / 2) 3 = 3 := by decide
  rw [h3] at h
  exact h

/-- C7 counterexample: on the equal-length candidate list `[ab, cd]` the hard
selector of src/app.js returns `cd`, the LAST maximal candidate, not the one
occurring earliest. -/
theorem c7_counterexample :
    tieWords = [abW, cdW] ∧
    abW.length = cdW.length ∧
    selectByDifficulty hardW tieWords 0 = cdW ∧
    cdW ≠ abW := by decide

/-- C7 (amended): the hard selector always returns a candidate of maximal
length, but in src/app.js ties are broken towards the LATEST occurrence
(every earlier candidate is `≤`, every later one strictly shorter), while in
src/unnamed/part_000 ties are broken towards the earliest occurrence. -/
theorem c7_hard_selector_amended :
    (∀ (words : List Word) (r : Nat), words ≠ [] → ∃ l1 l2,
      words = l1 ++ (selectByDifficulty hardW words r) :: l2 ∧
      (∀ q ∈ l1, q.length ≤ (selectByDifficulty hardW words r).length) ∧
      (∀ q ∈ l2, q.length < (selectByDifficulty hardW words r).length)) ∧
    (∀ (words : List Word) (r : Nat), words ≠ [] → ∃ l1 l2,
      words = l1 ++ (selectByDifficulty000 hardW words r) :: l2 ∧
      (∀ q ∈ l1, q.length < (selectByDifficulty000 hardW words r).length) ∧
      (∀ q ∈ l2, q.length ≤ (selectByDifficulty000 hardW words r).length)) := by
  constructor
  · intro words r hne
    obtain ⟨w, t, rfl⟩ : ∃ w t, words = w :: t := by
      cases words with
      | nil => exact absurd rfl hne
      | cons w t => exact ⟨w, t, rfl⟩
    have hsel : selectByDifficulty hardW (w :: t) r
        = (w :: t).foldl (fun x y => if x.length > y.length then x else y) w := by
      rw [selectByDifficulty, if_neg (by decide), if_pos rfl]
      rfl
    rw [hsel]
    obtain ⟨l1, l2, heq, hle, hlt⟩ := foldl_last_max_spec List.length (w :: t) w
    cases l1 with
    | nil =>
      rw [List.nil_append, List.cons.injEq] at heq
      obtain ⟨hr, hl2⟩ := heq
      exfalso
      have hwmem : w ∈ l2 := by
        rw [← hl2]
        exact List.mem_cons_self w t
      have hww := hlt w hwmem
      rw [← hr] at hww
      omega
    | cons z l1t =>
      rw [List.cons_append, List.cons.injEq] at heq
      obtain ⟨hz, ht⟩ := heq
      exact ⟨l1t, l2, ht, fun q hq => hle q (List.mem_cons_of_mem z hq), hlt⟩
  · intro words r hne
    obtain ⟨w, t, rfl⟩ : ∃ w t, words = w :: t := by
      cases words with
      | nil => exact absurd rfl hne
      | cons w t => exact ⟨w, t, rfl⟩
    have hsel : selectByDifficulty000 hardW (w :: t) r
        = (w :: t).foldl (fun x y => if y.length > x.length then y else x) w := by
      rw [selectByDifficulty000, if_neg (by decide), if_pos rfl]
      rfl
    rw [hsel]
    obtain ⟨l1, l2, heq, hlt, hle⟩ := foldl_first_max_spec List.length (w :: t) w
    cases l1 with
    | nil =>
      rw [List.nil_append, List.cons.injEq] at heq
      obtain ⟨hr, hl2⟩ := heq
      refine ⟨[], t, ?_, by simp, ?_⟩
      · rw [List.nil_append, ← hr]
      · intro q hq
        apply hle
        rw [← hl2]
        exact List.mem_cons_of_mem w hq
    | cons z l1t =>
      rw [List.cons_append, List.cons.injEq] at heq
      obtain ⟨hz, ht⟩ := heq
      exact ⟨l1t, l2, ht, fun q hq => hlt q (List.mem_cons_of_mem z hq), hle⟩

/-- Witness for the amended C7 on the concrete tied candidate list. -/
theorem c7_hard_selector_amended_witness :
    ∃ l1 l2, tieWords = l1 ++ (selectByDifficulty hardW tieWords 0) :: l2 ∧
      (∀ q ∈ l1, q.length ≤ (selectByDifficulty hardW tieWords 0).length) ∧
      (∀ q ∈ l2, q.length < (selectByDifficulty hardW tieWords 0).length) :=
  c7_hard_selector_amended.1 tieWords 0 (by decide)

lemma player_roundtrip (p : Player) (hd : Player.difficultyOf p ≠ some []) :
    Player.nameOf (deserializePlayer (playerSerialize p)) = Player.nameOf p ∧
    Player.scoreOf (deserializePlayer (playerSerialize p)) = Player.scoreOf p ∧
    Player.idOf (deserializePlayer (playerSerialize p)) = Player.idOf p ∧
    Player.emailOf (deserializePlayer (playerSerialize p)) = Player.emailOf p ∧
    Player.usernameOf (deserializePlayer (playerSerialize p)) = Player.usernameOf p ∧
    Player.difficultyOf (deserializePlayer (playerSerialize p)) = Player.difficultyOf p := by
  cases p with
  | human n s i e u =>
    have hne : some tHuman ≠ some tComp := by decide
    rw [playerSerialize, deserializePlayer, if_neg hne]
    refine ⟨rfl, rfl, rfl, ?_, ?_, rfl⟩
    · show some (jsOrW (some e) []) = some e
      rw [jsOrW_some_nil_default]
    · show some (jsOrW (some u) []) = some u
      rw [jsOrW_some_nil_default]
  | computer n s i d db =>
    rw [playerSerialize, deserializePlayer, if_pos rfl]
    refine ⟨rfl, rfl, rfl, rfl, rfl, ?_⟩
    show some (jsOrW (some d) mediumW) = some d
    have hdne : d ≠ [] := fun hcon => hd (by subst hcon; rfl)
    rw [jsOrW_some_of_ne mediumW hdne]

/-- C6: deserializing a serialized game reproduces the category, active flag,
last word and the used-word set (up to membership), and every player keeps
name, score, id and variant-specific fields.  The hypothesis reflects the
reachable states of the program: the difficulty of a computer player is never the empty
string (the constructor and the codec only ever produce
`easy`/`medium`/`hard`). -/
theorem c6_roundtrip (g : GameState) (user : Option Word)
    (hd : ∀ p ∈ g.players, Player.difficultyOf p ≠ some []) :
    (roundtripApp g user).currentCategory = g.currentCategory ∧
    (roundtripApp g user).isGameActive = g.isGameActive ∧
    (roundtripApp g user).lastWord = g.lastWord ∧
    (∀ x, x ∈ (roundtripApp g user).usedWords ↔ x ∈ g.usedWords) ∧
    (roundtripApp g user).players.length = g.players.length ∧
    (∀ j,
      ((roundtripApp g user).players.get? j).map Player.nameOf =
        (g.players.get? j).map Player.nameOf ∧
      ((roundtripApp g user).players.get? j).map Player.scoreOf =
        (g.players.get? j).map Player.scoreOf ∧
      ((roundtripApp g user).players.get? j).map Player.idOf =
        (g.players.get? j).map Player.idOf ∧
      ((roundtripApp g user).players.get? j).map Player.emailOf =
        (g.players.get? j).map Player.emailOf ∧
      ((roundtripApp g user).players.get? j).map Player.usernameOf =
        (g.players.get? j).map Player.usernameOf ∧
      ((roundtripApp g user).players.get? j).map Player.difficultyOf =
        (g.players.get? j).map Player.difficultyOf) := by
  have hps : (roundtripApp g user).players
      = g.players.map (fun p => deserializePlayer (playerSerialize p)) := by
    show (g.players.map playerSerialize).map deserializePlayer
      = g.players.map (fun p => deserializePlayer (playerSerialize p))
    rw [List.map_map]
    rfl
  refine ⟨?_, ?_, ?_, ?_, ?_, ?_⟩
  · show jsOrW (some g.currentCategory) [] = g.currentCategory
    exact jsOrW_some_nil_default _
  · show jsOrB (some g.isGameActive) = g.isGameActive
    cases g.isGameActive <;> rfl
  · show jsOrW (some g.lastWord) [] = g.lastWord
    exact jsOrW_some_nil_default _
  · intro x
    show x ∈ jsSetOfList g.usedWords ↔ x ∈ g.usedWords
    exact mem_jsSetOfList
  · rw [hps, List.length_map]
  · intro j
    rw [hps, List.get?_map]
    cases hq : g.players.get? j with
    | none => simp
    | some p =>
      have hmem : p ∈ g.players := List.get?_mem hq
      obtain ⟨h1, h2, h3, h4, h5, h6⟩ := player_roundtrip p (hd p hmem)
      simp [h1, h2, h3, h4, h5, h6]

/-- Witness for C6 on a concrete two-player game. -/
theorem c6_roundtrip_witness :
    (roundtripApp demoGame none).currentCategory = demoGame.currentCategory ∧
    (roundtripApp demoGame none).isGameActive = demoGame.isGameActive ∧
    ((roundtripApp demoGame none).players.get? 1).map Player.difficultyOf =
      (demoGame.players.get? 1).map Player.difficultyOf :=
  ⟨(c6_roundtrip demoGame none (by decide)).1,
   (c6_roundtrip demoGame none (by decide)).2.1,
   ((c6_roundtrip demoGame none (by decide)).2.2.2.2.2 1).2.2.2.2.2⟩

/-- C9: the codec substitutes defaults for missing optional fields — medium
difficulty, empty email/username, inactive flag, empty used-word list — and
any snapshot whose discriminator tag is not `ComputerPlayer` (unknown or
missing) still reconstructs, as a human player. -/
theorem c9_decode_defaults (ps : PlayerSnapshot) (d : GameSnapshot) :
    (ps.tag ≠ some tComp →
      deserializePlayer ps =
        Player.human ps.name ps.score ps.id (jsOrW ps.email []) (jsOrW ps.username [])) ∧
    (ps.tag = some tComp → ps.difficulty = none →
      Player.difficultyOf (deserializePlayer ps) = some mediumW) ∧
    (ps.tag ≠ some tComp → ps.email = none →
      Player.emailOf (deserializePlayer ps) = some []) ∧
    (ps.tag ≠ some tComp → ps.username = none →
      Player.usernameOf (deserializePlayer ps) = some []) ∧
    (d.isGameActive = none → (gameDeserialize d).isGameActive = false) ∧
    (d.usedWords = none → (gameDeserialize d).usedWords = []) := by
  refine ⟨?_, ?_, ?_, ?_, ?_, ?_⟩
  · intro h
    rw [deserializePlayer, if_neg h]
  · intro h hdiff
    rw [deserializePlayer, if_pos h, hdiff]
    rfl
  · intro h he
    rw [deserializePlayer, if_neg h, he]
    rfl
  · intro h hu
    rw [deserializePlayer, if_neg h, hu]
    rfl
  · intro h
    show jsOrB d.isGameActive = false
    rw [h]
    rfl
  · intro h
    show jsSetOfList (d.usedWords.getD []) = []
    rw [h]
    rfl

/-- Witness for C9 on a snapshot with an unknown tag and all optional fields
missing. -/
theorem c9_decode_defaults_witness :
    deserializePlayer snapUnknown =
      Player.human snapUnknown.name snapUnknown.score snapUnknown.id
        (jsOrW snapUnknown.email []) (jsOrW snapUnknown.username []) ∧
    (gameDeserialize snapBare).isGameActive = false ∧
    (gameDeserialize snapBare).usedWords = [] :=
  ⟨(c9_decode_defaults snapUnknown snapBare).1 (by decide),
   (c9_decode_defaults snapUnknown snapBare).2.2.2.2.1 rfl,
   (c9_decode_defaults snapUnknown snapBare).2.2.2.2.2 rfl⟩

end WordChain
